import Mathlib

/-!
Shallow embedding of the core data pipeline of `src/app.py` (Industry Buy
Pressure dashboard): buy-pressure classification, color interpolation,
snapshot-file resolution, reporting-date derivation, spreadsheet-row
normalization, industry-to-sector mapping, and the industry-by-stock matrix.

Python floats are modelled as `Option ℚ`, with `none` standing for NaN; a
Python comparison against NaN is always false, which `pyGt` / `pyLt`
reproduce.  Code that raises exceptions is modelled with `Except` / `Option`.
-/

/-- Python float comparison `x > c` where `x` may be NaN (`none`):
any comparison with NaN is false. -/
def pyGt (x : Option ℚ) (c : ℚ) : Bool :=
  match x with
  | none => false
  | some v => decide (c < v)

/-- Python float comparison `x < c` where `x` may be NaN (`none`):
any comparison with NaN is false. -/
def pyLt (x : Option ℚ) (c : ℚ) : Bool :=
  match x with
  | none => false
  | some v => decide (v < c)

/-- Embedding of `get_buy_pressure_status` (src/app.py lines 44-57).
The decimal literals 0.667, 0.60, 0.55, 0.333, 0.45 are written as the
exact rationals they denote. -/
def get_buy_pressure_status (bp : Option ℚ) : String :=
  if pyGt bp (667/1000) then "3 🔥 EXTREME"
  else if pyGt bp (60/100) then "2 🚀 STRONG"
  else if pyGt bp (55/100) then "1 📈 BUY"
  else if pyLt bp (333/1000) then "0a 💀 WEAK"
  else if pyLt bp (45/100) then "0b ⚠️ CAUTION"
  else "0c ➖ NEUTRAL"

/-- Embedding of `get_buy_pressure_status_display` (src/app.py lines 61-74):
the same thresholds without the sort-order tag. -/
def get_buy_pressure_status_display (bp : Option ℚ) : String :=
  if pyGt bp (667/1000) then "🔥 EXTREME"
  else if pyGt bp (60/100) then "🚀 STRONG"
  else if pyGt bp (55/100) then "📈 BUY"
  else if pyLt bp (333/1000) then "💀 WEAK"
  else if pyLt bp (45/100) then "⚠️ CAUTION"
  else "➖ NEUTRAL"

/-- Bucket rank 0-5 carried by the sort tag of each status string
(0a WEAK < 0b CAUTION < 0c NEUTRAL < 1 BUY < 2 STRONG < 3 EXTREME). -/
def statusRank (s : String) : ℕ :=
  if s = "0a 💀 WEAK" then 0
  else if s = "0b ⚠️ CAUTION" then 1
  else if s = "0c ➖ NEUTRAL" then 2
  else if s = "1 📈 BUY" then 3
  else if s = "2 🚀 STRONG" then 4
  else 5

theorem status_some_eq (x : ℚ) : get_buy_pressure_status (some x) =
    if 667/1000 < x then "3 🔥 EXTREME"
    else if 60/100 < x then "2 🚀 STRONG"
    else if 55/100 < x then "1 📈 BUY"
    else if x < 333/1000 then "0a 💀 WEAK"
    else if x < 45/100 then "0b ⚠️ CAUTION"
    else "0c ➖ NEUTRAL" := by
  simp [get_buy_pressure_status, pyGt, pyLt]

theorem status_display_some_eq (x : ℚ) : get_buy_pressure_status_display (some x) =
    if 667/1000 < x then "🔥 EXTREME"
    else if 60/100 < x then "🚀 STRONG"
    else if 55/100 < x then "📈 BUY"
    else if x < 333/1000 then "💀 WEAK"
    else if x < 45/100 then "⚠️ CAUTION"
    else "➖ NEUTRAL" := by
  simp [get_buy_pressure_status_display, pyGt, pyLt]

theorem statusRank_status_eq (x : ℚ) :
    statusRank (get_buy_pressure_status (some x)) =
    if 667/1000 < x then 5
    else if 60/100 < x then 4
    else if 55/100 < x then 3
    else if x < 333/1000 then 0
    else if x < 45/100 then 1
    else 2 := by
  rw [status_some_eq]
  split_ifs <;> decide

/-- C1: `get_buy_pressure_status` is total and monotonic in bucket rank as the
numeric input increases, with exact strict-inequality boundaries:
EXTREME iff x > 0.667 (so 0.667 itself is STRONG), STRONG for
0.60 < x ≤ 0.667, BUY for 0.55 < x ≤ 0.60, WEAK for x < 0.333, CAUTION for
0.333 ≤ x < 0.45, NEUTRAL otherwise, so exactly 0.45 and exactly 0.55 yield
NEUTRAL; the display variant classifies into the same buckets. -/
theorem classify_bucket_boundaries :
    (∀ x : ℚ, get_buy_pressure_status (some x) = "3 🔥 EXTREME" ↔ 667/1000 < x)
    ∧ get_buy_pressure_status (some (667/1000)) = "2 🚀 STRONG"
    ∧ (∀ x : ℚ, get_buy_pressure_status (some x) = "2 🚀 STRONG" ↔
        (60/100 < x ∧ x ≤ 667/1000))
    ∧ (∀ x : ℚ, get_buy_pressure_status (some x) = "1 📈 BUY" ↔
        (55/100 < x ∧ x ≤ 60/100))
    ∧ (∀ x : ℚ, get_buy_pressure_status (some x) = "0a 💀 WEAK" ↔ x < 333/1000)
    ∧ (∀ x : ℚ, get_buy_pressure_status (some x) = "0b ⚠️ CAUTION" ↔
        (333/1000 ≤ x ∧ x < 45/100))
    ∧ (∀ x : ℚ, get_buy_pressure_status (some x) = "0c ➖ NEUTRAL" ↔
        (45/100 ≤ x ∧ x ≤ 55/100))
    ∧ get_buy_pressure_status (some (45/100)) = "0c ➖ NEUTRAL"
    ∧ get_buy_pressure_status (some (55/100)) = "0c ➖ NEUTRAL"
    ∧ (∀ x y : ℚ, x ≤ y →
        statusRank (get_buy_pressure_status (some x)) ≤
          statusRank (get_buy_pressure_status (some y)))
    ∧ (∀ x : ℚ, get_buy_pressure_status (some x) ∈
        ["0a 💀 WEAK", "0b ⚠️ CAUTION", "0c ➖ NEUTRAL",
         "1 📈 BUY", "2 🚀 STRONG", "3 🔥 EXTREME"])
    ∧ (∀ bp : Option ℚ,
        (get_buy_pressure_status bp, get_buy_pressure_status_display bp) ∈
        [("3 🔥 EXTREME", "🔥 EXTREME"), ("2 🚀 STRONG", "🚀 STRONG"),
         ("1 📈 BUY", "📈 BUY"), ("0a 💀 WEAK", "💀 WEAK"),
         ("0b ⚠️ CAUTION", "⚠️ CAUTION"), ("0c ➖ NEUTRAL", "➖ NEUTRAL")]) := by
  refine ⟨?_, ?_, ?_, ?_, ?_, ?_, ?_, ?_, ?_, ?_, ?_, ?_⟩
  · intro x; rw [status_some_eq]
    split_ifs <;> simp_all <;> (try constructor) <;> (try intro h9) <;> linarith
  · rw [status_some_eq]; norm_num
  · intro x; rw [status_some_eq]
    split_ifs <;> simp_all <;> (try constructor) <;> (try intro h9) <;> linarith
  · intro x; rw [status_some_eq]
    split_ifs <;> simp_all <;> (try constructor) <;> (try intro h9) <;> linarith
  · intro x; rw [status_some_eq]
    split_ifs <;> simp_all <;> (try constructor) <;> (try intro h9) <;> linarith
  · intro x; rw [status_some_eq]
    split_ifs <;> simp_all <;> (try constructor) <;> (try intro h9) <;> linarith
  · intro x; rw [status_some_eq]
    split_ifs <;> simp_all <;> (try constructor) <;> (try intro h9) <;> linarith
  · rw [status_some_eq]; norm_num
  · rw [status_some_eq]; norm_num
  · intro x y hxy
    rw [statusRank_status_eq, statusRank_status_eq]
    split_ifs <;> first | decide | (exfalso; linarith)
  · intro x; rw [status_some_eq]; split_ifs <;> simp
  · intro bp
    cases bp with
    | none => decide
    | some x =>
      rw [status_some_eq, status_display_some_eq]
      split_ifs <;> decide

/-- Closed witness for `classify_bucket_boundaries` at concrete inputs. -/
theorem classify_bucket_boundaries_witness :
    get_buy_pressure_status (some (7/10)) = "3 🔥 EXTREME"
    ∧ statusRank (get_buy_pressure_status (some (3/10))) ≤
        statusRank (get_buy_pressure_status (some (62/100))) := by
  constructor
  · exact (classify_bucket_boundaries.1 (7/10)).mpr (by norm_num)
  · exact classify_bucket_boundaries.2.2.2.2.2.2.2.2.2.1 (3/10) (62/100) (by norm_num)

/-- C3 counterexample: for NaN input the classifier does NOT return a status
distinct from the six ordered buckets; it falls through every comparison and
yields the ordinary NEUTRAL bucket, the same string produced for the numeric
input 0.5. -/
theorem classify_nan_not_distinct :
    get_buy_pressure_status none = "0c ➖ NEUTRAL"
    ∧ get_buy_pressure_status none = get_buy_pressure_status (some (1/2)) := by
  have hnone : get_buy_pressure_status none = "0c ➖ NEUTRAL" := rfl
  have hhalf : get_buy_pressure_status (some (1/2)) = "0c ➖ NEUTRAL" := by
    rw [status_some_eq]
    split_ifs <;> first | rfl | (exfalso; norm_num at *)
  exact ⟨hnone, hnone.trans hhalf.symm⟩

/-- C3 amended: `get_buy_pressure_status` is total and never raises; NaN input
is handled by falling through to the NEUTRAL bucket (every comparison with NaN
is false), not by a dedicated unknown status; every input yields one of the
six ordered bucket strings. -/
theorem classify_total_nan_neutral :
    get_buy_pressure_status none = "0c ➖ NEUTRAL"
    ∧ ∀ bp : Option ℚ, get_buy_pressure_status bp ∈
        ["0a 💀 WEAK", "0b ⚠️ CAUTION", "0c ➖ NEUTRAL",
         "1 📈 BUY", "2 🚀 STRONG", "3 🔥 EXTREME"] := by
  refine ⟨by decide, ?_⟩
  intro bp
  cases bp with
  | none => decide
  | some x => rw [status_some_eq]; split_ifs <;> simp

/-- Lowercase hexadecimal digit for a value 0-15, as produced by the
Python format specifier 02x. -/
def hexDigit (n : ℕ) : Char :=
  if n < 10 then Char.ofNat (48 + n) else Char.ofNat (87 + n)

/-- Two lowercase hex digits of a byte value, as produced by the Python
format specifier 02x for values 0-255. -/
def hex2 (n : ℕ) : List Char :=
  [hexDigit (n / 16 % 16), hexDigit (n % 16)]

/-- Assembly of the color string, mirroring the Python f-string
that writes a hash sign followed by r, g, b as two hex digits each. -/
def strColor (r g b : ℕ) : String :=
  String.mk ('#' :: (hex2 r ++ hex2 g ++ hex2 b))

/-- Truncation toward zero, the behaviour of the Python builtin int() on a
float; on the nonnegative values produced in the color function it agrees
with the floor. -/
def pyInt (q : ℚ) : ℤ :=
  if 0 ≤ q then ⌊q⌋ else -⌊-q⌋

/-- Embedding of `get_color_from_buy_pressure` (src/app.py lines 25-40):
NaN gives fixed gray, otherwise the input is clamped to [0,1] and linearly
interpolated red→yellow on [0,0.5) and yellow→green on [0.5,1]. -/
def get_color_from_buy_pressure (bp : Option ℚ) : String :=
  match bp with
  | none => "#808080"
  | some q =>
    let normalized := max 0 (min 1 q)
    if normalized ≥ 1/2 then
      let ratio := (normalized - 1/2) * 2
      strColor (pyInt (255 * (1 - ratio))).toNat 255 0
    else
      let ratio := normalized * 2
      strColor 255 (pyInt (255 * ratio)).toNat 0

theorem strColor_b0_ne_gray (r g : ℕ) : strColor r g 0 ≠ "#808080" := by
  intro h
  have hd : ('#' :: (hex2 r ++ hex2 g ++ hex2 0)) = "#808080".data := congrArg String.data h
  have hgray : "#808080".data = ['#', '8', '0', '8', '0', '8', '0'] := rfl
  rw [hgray] at hd
  simp [hex2, hexDigit] at hd

theorem clamp_idem (q : ℚ) : max 0 (min 1 (max 0 (min 1 q))) = max 0 (min 1 q) := by
  have h0 : (0:ℚ) ≤ max 0 (min 1 q) := le_max_left 0 _
  have h1 : max 0 (min 1 q) ≤ 1 := max_le (by norm_num) (min_le_left 1 q)
  rw [min_eq_right h1, max_eq_right h0]

/-- C8: `get_color_from_buy_pressure` sends 0 to red, 0.5 to yellow and 1 to
green; the input is clamped to [0,1] before interpolation; NaN maps to the
fixed gray, which no numeric input can produce (numeric colors always have a
zero blue channel). -/
theorem color_endpoints_clamp_gray :
    get_color_from_buy_pressure (some 0) = "#ff0000"
    ∧ get_color_from_buy_pressure (some (1/2)) = "#ffff00"
    ∧ get_color_from_buy_pressure (some 1) = "#00ff00"
    ∧ (∀ q : ℚ, get_color_from_buy_pressure (some q) =
        get_color_from_buy_pressure (some (max 0 (min 1 q))))
    ∧ get_color_from_buy_pressure none = "#808080"
    ∧ (∀ q : ℚ, get_color_from_buy_pressure (some q) ≠ "#808080") := by
  refine ⟨?_, ?_, ?_, ?_, rfl, ?_⟩
  · show get_color_from_buy_pressure (some 0) = "#ff0000"
    rw [show get_color_from_buy_pressure (some 0)
          = strColor 255 (pyInt (255 * ((max 0 (min 1 (0:ℚ))) * 2))).toNat 0 by
        rw [get_color_from_buy_pressure]
        rw [if_neg (by norm_num)]]
    norm_num [pyInt, strColor, hex2, hexDigit]
  · rw [show get_color_from_buy_pressure (some (1/2))
          = strColor (pyInt (255 * (1 - ((max 0 (min 1 ((1:ℚ)/2))) - 1/2) * 2))).toNat 255 0 by
        rw [get_color_from_buy_pressure]
        rw [if_pos (by norm_num)]]
    norm_num [pyInt, strColor, hex2, hexDigit]
    rfl
  · rw [show get_color_from_buy_pressure (some 1)
          = strColor (pyInt (255 * (1 - ((max 0 (min 1 (1:ℚ))) - 1/2) * 2))).toNat 255 0 by
        rw [get_color_from_buy_pressure]
        rw [if_pos (by norm_num)]]
    norm_num [pyInt, strColor, hex2, hexDigit]
  · intro q
    rw [get_color_from_buy_pressure, get_color_from_buy_pressure]
    rw [clamp_idem]
  · intro q
    rw [get_color_from_buy_pressure]
    dsimp only
    split_ifs <;> apply strColor_b0_ne_gray

/-- Stable insertion of an element into a list sorted descending by key:
the element passes every element with a strictly greater key and stops in
front of the first element whose key is less than or equal, so elements with
equal keys keep their input order. -/
def insertDescBy {α β : Type} [LinearOrder β] (key : α → β) (x : α) : List α → List α
  | [] => [x]
  | y :: ys => if key x < key y then y :: insertDescBy key x ys else x :: y :: ys

/-- Stable descending insertion sort by key, modelling the descending
sort_values used in src/app.py (stable on ties). -/
def sortDescBy {α β : Type} [LinearOrder β] (key : α → β) : List α → List α
  | [] => []
  | x :: xs => insertDescBy key x (sortDescBy key xs)

theorem insertDescBy_perm {α β : Type} [LinearOrder β] (key : α → β) (x : α)
    (l : List α) : List.Perm (insertDescBy key x l) (x :: l) := by
  induction l with
  | nil => exact List.Perm.refl _
  | cons y ys ih =>
    rw [insertDescBy]
    split_ifs
    · exact (ih.cons y).trans (List.Perm.swap x y ys)
    · exact List.Perm.refl _

theorem sortDescBy_perm {α β : Type} [LinearOrder β] (key : α → β) (l : List α) :
    List.Perm (sortDescBy key l) l := by
  induction l with
  | nil => exact List.Perm.refl _
  | cons x xs ih => exact (insertDescBy_perm key x (sortDescBy key xs)).trans (ih.cons x)

theorem mem_insertDescBy {α β : Type} [LinearOrder β] (key : α → β) (x a : α)
    (l : List α) : a ∈ insertDescBy key x l ↔ a = x ∨ a ∈ l := by
  rw [(insertDescBy_perm key x l).mem_iff, List.mem_cons]

theorem sorted_insertDescBy {α β : Type} [LinearOrder β] (key : α → β) (x : α)
    (l : List α) (h : l.Sorted (fun a b => key b ≤ key a)) :
    (insertDescBy key x l).Sorted (fun a b => key b ≤ key a) := by
  induction l with
  | nil => simp [insertDescBy]
  | cons y ys ih =>
    rw [List.sorted_cons] at h
    obtain ⟨hy, hys⟩ := h
    rw [insertDescBy]
    split_ifs with hlt
    · rw [List.sorted_cons]
      refine ⟨?_, ih hys⟩
      intro b hb
      rcases (mem_insertDescBy key x b ys).mp hb with rfl | hb
      · exact le_of_lt hlt
      · exact hy b hb
    · rw [List.sorted_cons]
      refine ⟨?_, List.sorted_cons.mpr ⟨hy, hys⟩⟩
      intro b hb
      rcases List.mem_cons.mp hb with rfl | hb
      · exact le_of_not_lt hlt
      · exact (hy b hb).trans (le_of_not_lt hlt)

theorem sorted_sortDescBy {α β : Type} [LinearOrder β] (key : α → β) (l : List α) :
    (sortDescBy key l).Sorted (fun a b => key b ≤ key a) := by
  induction l with
  | nil => simp [sortDescBy]
  | cons x xs ih => exact sorted_insertDescBy key x _ ih

theorem sortDescBy_head_max {α β : Type} [LinearOrder β] (key : α → β) (l : List α)
    (c : α) (rest : List α) (h : sortDescBy key l = c :: rest) :
    c ∈ l ∧ ∀ x ∈ l, key x ≤ key c := by
  have hperm := sortDescBy_perm key l
  rw [h] at hperm
  have hsorted := sorted_sortDescBy key l
  rw [h, List.sorted_cons] at hsorted
  constructor
  · exact hperm.subset (List.mem_cons_self c rest)
  · intro x hx
    rcases List.mem_cons.mp (hperm.symm.subset hx) with rfl | hx2
    · exact le_refl _
    · exact hsorted.1 x hx2

/-- Character-list prefix test. -/
def isPrefixL : List Char → List Char → Bool
  | [], _ => true
  | _ :: _, [] => false
  | a :: as, b :: bs => a == b && isPrefixL as bs

/-- Character-list suffix test. -/
def isSuffixL (p l : List Char) : Bool :=
  isPrefixL p.reverse l.reverse

/-- Glob match for the pattern used by `find_latest_file` (src/app.py line
91-92): the filename starts with the given name stem and the remainder ends
in .xlsx. -/
def globMatch (pre fn : String) : Bool :=
  isPrefixL pre.data fn.data && isSuffixL (".xlsx".data) (fn.data.drop pre.data.length)

/-- Shape test for a 15-character block YYYYMMDD_HHMMSS: eight digits, an
underscore, six digits. -/
def isTsToken (l : List Char) : Bool :=
  l.length == 15 && (l.take 8).all Char.isDigit && l.get? 8 == some '_'
    && (l.drop 9).all Char.isDigit

/-- Embedding of the end-anchored timestamp regex of `find_latest_file`
(src/app.py line 99): the YYYYMMDD_HHMMSS token immediately preceding the
.xlsx extension, if present. -/
def extractTs (fn : String) : Option String :=
  let cs := fn.data
  if 20 ≤ cs.length ∧ isSuffixL (".xlsx".data) cs
      ∧ isTsToken ((cs.drop (cs.length - 20)).take 15) then
    some (String.mk ((cs.drop (cs.length - 20)).take 15))
  else none

/-- The two failure modes of `find_latest_file` (src/app.py lines 94-111):
no file matches the glob, or files match but none carries a parseable
timestamp.  Both are raised as FileNotFoundError in Python, distinguished
by their messages. -/
inductive FindError where
  | noMatch (directory pre : String) : FindError
  | noTimestamp (directory : String) : FindError
deriving DecidableEq

/-- The message carried by each FileNotFoundError raised in
`find_latest_file` (src/app.py lines 95-97 and 109-111). -/
def findErrorMsg : FindError → String
  | .noMatch d p =>
      "'" ++ d ++ "/' 内に '" ++ p ++ "*.xlsx' に一致するファイルが見つかりません。"
  | .noTimestamp d =>
      "'" ++ d ++ "/' 内に日付パターン(YYYYMMDD_HHMMSS)を含むファイルが見つかりません。"

/-- The (file, timestamp-token) candidate list built by the loop of
`find_latest_file` (src/app.py lines 101-106). -/
def tsCandidates (files : List String) (pre : String) : List (String × String) :=
  (files.filter (fun f => globMatch pre f)).filterMap
    (fun f => (extractTs f).map (fun t => (f, t)))

/-- Embedding of `find_latest_file` (src/app.py lines 90-114): the directory
is modelled as the list of file names the glob scan sees, in scan order; the
descending stable sort plus first-element selection is the sort call of line
113 followed by the index [0] of line 114. -/
def find_latest_file (directory : String) (files : List String) (pre : String) :
    Except FindError String :=
  if (files.filter (fun f => globMatch pre f)).isEmpty then
    .error (.noMatch directory pre)
  else
    match (sortDescBy (fun c => c.2) (tsCandidates files pre)).head? with
    | none => .error (.noTimestamp directory)
    | some c => .ok c.1

/-- Leftmost match of the un-anchored regex of
`get_data_date_from_filename` (src/app.py line 118): eight digits, an
underscore, six digits, anywhere in the string; returns the eight-digit
date group of the first (leftmost) match. -/
def firstTs : List Char → Option (List Char)
  | [] => none
  | c :: cs =>
    if (((c :: cs).take 8).length == 8 && ((c :: cs).take 8).all Char.isDigit
        && (c :: cs).get? 8 == some '_'
        && (((c :: cs).drop 9).take 6).length == 6
        && (((c :: cs).drop 9).take 6).all Char.isDigit) then
      some ((c :: cs).take 8)
    else
      firstTs cs

/-- Calendar date with the Gregorian rules used by Python datetime. -/
structure Date where
  y : ℕ
  m : ℕ
  d : ℕ
deriving DecidableEq

/-- Gregorian leap-year rule. -/
def isLeap (y : ℕ) : Bool :=
  (y % 4 == 0 && y % 100 != 0) || y % 400 == 0

/-- Number of days of a month. -/
def daysInMonth (y m : ℕ) : ℕ :=
  if m = 2 then (if isLeap y then 29 else 28)
  else if m = 4 ∨ m = 6 ∨ m = 9 ∨ m = 11 then 30
  else 31

/-- Numeric value of a list of decimal digit characters. -/
def digitsVal (l : List Char) : ℕ :=
  l.foldl (fun a c => a * 10 + (c.toNat - 48)) 0

/-- Embedding of datetime.strptime with format %Y%m%d on an eight-digit
string: the result is none when the digits do not form a valid calendar
date, which in Python raises ValueError. -/
def strptimeY8 (l : List Char) : Option Date :=
  let y := digitsVal (l.take 4)
  let m := digitsVal ((l.drop 4).take 2)
  let d := digitsVal ((l.drop 6).take 2)
  if 1 ≤ y ∧ 1 ≤ m ∧ m ≤ 12 ∧ 1 ≤ d ∧ d ≤ daysInMonth y m then
    some ⟨y, m, d⟩
  else none

/-- The previous calendar day, the effect of subtracting timedelta(days=1). -/
def prevDay (dt : Date) : Date :=
  if 1 < dt.d then ⟨dt.y, dt.m, dt.d - 1⟩
  else if 1 < dt.m then ⟨dt.y, dt.m - 1, daysInMonth dt.y (dt.m - 1)⟩
  else ⟨dt.y - 1, 12, 31⟩

/-- Decimal digits of a natural number, zero-padded to the given width, as
strftime produces for %Y (width 4) and %m, %d (width 2). -/
def padNum (w n : ℕ) : String :=
  let s := toString n
  String.mk (List.replicate (w - s.length) '0') ++ s

/-- Date formatting with strftime format %Y-%m-%d. -/
def formatDate (dt : Date) : String :=
  padNum 4 dt.y ++ "-" ++ padNum 2 dt.m ++ "-" ++ padNum 2 dt.d

/-- Embedding of `get_data_date_from_filename` (src/app.py lines 117-123):
some s is a normal return; none models a raised exception (ValueError from
strptime on an invalid date, or OverflowError when subtracting a day from
0001-01-01).  A filename without a timestamp returns the fixed sentinel
string 不明 (unknown). -/
def get_data_date_from_filename (fn : String) : Option String :=
  match firstTs fn.data with
  | none => some "不明"
  | some d8 =>
    match strptimeY8 d8 with
    | none => none
    | some dt =>
      if dt = ⟨1, 1, 1⟩ then none
      else some (formatDate (prevDay dt))

theorem tsCandidates_append (files1 files2 : List String) (pre : String) :
    tsCandidates (files1 ++ files2) pre
      = tsCandidates files1 pre ++ tsCandidates files2 pre := by
  unfold tsCandidates
  rw [List.filter_append, List.filterMap_append]

theorem tsCandidates_cons_of_some (f t : String) (files : List String) (pre : String)
    (hg : globMatch pre f = true) (ht : extractTs f = some t) :
    tsCandidates (f :: files) pre = (f, t) :: tsCandidates files pre := by
  unfold tsCandidates
  rw [List.filter_cons, if_pos hg]
  exact List.filterMap_cons_some (by rw [ht]; rfl)

theorem find_latest_file_of_sorted_cons (directory : String) (files : List String)
    (pre : String) (c : String × String) (rest : List (String × String))
    (hne : files.filter (fun f => globMatch pre f) ≠ [])
    (hc : sortDescBy (fun c => c.2) (tsCandidates files pre) = c :: rest) :
    find_latest_file directory files pre = .ok c.1 := by
  rw [find_latest_file, if_neg (by simp [List.isEmpty_iff, hne]), hc]
  rfl

/-- C4: when at least one file matches the name stem and carries a parseable
YYYYMMDD_HHMMSS timestamp before the extension, `find_latest_file` returns a
candidate whose timestamp token is lexicographically greatest among all
candidates; and inserting, anywhere in the directory, a matching file whose
token is strictly greater than every existing candidate token makes the
result that file. -/
theorem resolve_latest_max_and_insert (directory : String) (files l1 l2 : List String)
    (pre g tg : String) :
    (∀ f t, (f, t) ∈ tsCandidates files pre →
      ∃ gmax tmax, find_latest_file directory files pre = .ok gmax
        ∧ (gmax, tmax) ∈ tsCandidates files pre
        ∧ ∀ c ∈ tsCandidates files pre, c.2 ≤ tmax)
    ∧ (globMatch pre g = true → extractTs g = some tg →
        (∀ c ∈ tsCandidates (l1 ++ l2) pre, c.2 < tg) →
        find_latest_file directory (l1 ++ g :: l2) pre = .ok g) := by
  constructor
  · intro f t hmem
    have hfne : files.filter (fun f => globMatch pre f) ≠ [] := by
      rcases List.mem_filterMap.mp hmem with ⟨a, ha, _⟩
      exact List.ne_nil_of_mem ha
    have hcand : tsCandidates files pre ≠ [] := List.ne_nil_of_mem hmem
    have hsne : sortDescBy (fun c => c.2) (tsCandidates files pre) ≠ [] := by
      intro h0
      have hlen := (sortDescBy_perm (fun c => c.2) (tsCandidates files pre)).length_eq
      rw [h0] at hlen
      exact hcand (List.eq_nil_of_length_eq_zero hlen.symm)
    obtain ⟨c, rest, hc⟩ := List.exists_cons_of_ne_nil hsne
    have hmax := sortDescBy_head_max (fun c => c.2) (tsCandidates files pre) c rest hc
    refine ⟨c.1, c.2, find_latest_file_of_sorted_cons directory files pre c rest hfne hc, ?_, hmax.2⟩
    simpa using hmax.1
  · intro hglob hts hlt
    have hcands : tsCandidates (l1 ++ g :: l2) pre
        = tsCandidates l1 pre ++ (g, tg) :: tsCandidates l2 pre := by
      rw [tsCandidates_append, tsCandidates_cons_of_some g tg l2 pre hglob hts]
    have hgmem : (g, tg) ∈ tsCandidates (l1 ++ g :: l2) pre := by
      rw [hcands]
      exact List.mem_append_right _ (List.mem_cons_self _ _)
    have hfne : (l1 ++ g :: l2).filter (fun f => globMatch pre f) ≠ [] := by
      rcases List.mem_filterMap.mp hgmem with ⟨a, ha, _⟩
      exact List.ne_nil_of_mem ha
    have hcand : tsCandidates (l1 ++ g :: l2) pre ≠ [] := List.ne_nil_of_mem hgmem
    have hsne : sortDescBy (fun c => c.2) (tsCandidates (l1 ++ g :: l2) pre) ≠ [] := by
      intro h0
      have hlen := (sortDescBy_perm (fun c => c.2) (tsCandidates (l1 ++ g :: l2) pre)).length_eq
      rw [h0] at hlen
      exact hcand (List.eq_nil_of_length_eq_zero hlen.symm)
    obtain ⟨c, rest, hc⟩ := List.exists_cons_of_ne_nil hsne
    have hmax := sortDescBy_head_max (fun c => c.2) (tsCandidates (l1 ++ g :: l2) pre) c rest hc
    have htg_le : tg ≤ c.2 := hmax.2 (g, tg) hgmem
    have hceq : c = (g, tg) := by
      have hcmem := hmax.1
      rw [hcands] at hcmem
      rcases List.mem_append.mp hcmem with hin1 | hin2
      · exfalso
        have : c.2 < tg := hlt c (by
          rw [tsCandidates_append]
          exact List.mem_append_left _ hin1)
        exact absurd htg_le (not_le_of_lt this)
      · rcases List.mem_cons.mp hin2 with hEq | hin2b
        · exact hEq
        · exfalso
          have : c.2 < tg := hlt c (by
            rw [tsCandidates_append]
            exact List.mem_append_right _ hin2b)
          exact absurd htg_le (not_le_of_lt this)
    have := find_latest_file_of_sorted_cons directory (l1 ++ g :: l2) pre c rest hfne hc
    rw [hceq] at this
    exact this

/-- Closed witness for `resolve_latest_max_and_insert`: the spec scenario with
two dated snapshots, where adding the 0211 file makes it the result. -/
theorem resolve_latest_max_and_insert_witness :
    find_latest_file "data"
      ["industry_x_20260210_090000.xlsx", "industry_x_20260211_090000.xlsx"]
      "industry_x_" = .ok "industry_x_20260211_090000.xlsx" := by
  have h := (resolve_latest_max_and_insert "data"
      ["industry_x_20260210_090000.xlsx", "industry_x_20260211_090000.xlsx"]
      ["industry_x_20260210_090000.xlsx"] []
      "industry_x_" "industry_x_20260211_090000.xlsx" "20260211_090000").2
  exact h (by decide) (by decide) (by
    intro c hc
    have hcand : tsCandidates (["industry_x_20260210_090000.xlsx"] ++ []) "industry_x_"
        = [("industry_x_20260210_090000.xlsx", "20260210_090000")] := by decide
    rw [hcand] at hc
    have hceq := List.mem_singleton.mp hc
    rw [hceq]
    rw [String.lt_iff_toList_lt]
    decide)

/-- C9: `find_latest_file` fails with the no-match error when no file matches
the name stem, and with the distinct no-timestamp error when files match the
stem but none carries a parseable timestamp; the two error values and the
messages they are rendered with are distinguishable, so a caller can test the
two conditions separately. -/
theorem resolver_two_error_conditions :
    (∀ directory files pre, files.filter (fun f => globMatch pre f) = [] →
        find_latest_file directory files pre = .error (.noMatch directory pre))
    ∧ (∀ directory files pre, files.filter (fun f => globMatch pre f) ≠ [] →
        tsCandidates files pre = [] →
        find_latest_file directory files pre = .error (.noTimestamp directory))
    ∧ (∀ d p d2, FindError.noMatch d p ≠ FindError.noTimestamp d2)
    ∧ findErrorMsg (.noMatch "data" "industry_etf_multicondition_")
        ≠ findErrorMsg (.noTimestamp "data") := by
  refine ⟨?_, ?_, ?_, by decide⟩
  · intro d files pre h
    rw [find_latest_file, if_pos (by simp [List.isEmpty_iff, h])]
  · intro d files pre hne hc
    rw [find_latest_file, if_neg (by simp [List.isEmpty_iff, hne]), hc]
    rfl
  · intro d p d2 h
    exact FindError.noConfusion h

/-- Closed witness for `resolver_two_error_conditions`: a directory with no
matching file, and one whose matching file has no timestamp. -/
theorem resolver_two_error_conditions_witness :
    find_latest_file "data" ["readme.txt"] "industry_etf_multicondition_"
        = .error (.noMatch "data" "industry_etf_multicondition_")
    ∧ find_latest_file "data" ["industry_etf_multicondition_nodate.xlsx"]
        "industry_etf_multicondition_" = .error (.noTimestamp "data") := by
  constructor
  · exact resolver_two_error_conditions.1 "data" ["readme.txt"]
      "industry_etf_multicondition_" (by decide)
  · exact resolver_two_error_conditions.2.1 "data"
      ["industry_etf_multicondition_nodate.xlsx"]
      "industry_etf_multicondition_" (by decide) (by decide)

/-- C7 counterexample: for a filename carrying no timestamp the function
returns the fixed sentinel 不明, which is not the string unknown claimed by
the spec (不明 is its Japanese rendering). -/
theorem data_date_sentinel_not_unknown :
    get_data_date_from_filename "report.xlsx" = some "不明"
    ∧ ("不明" : String) ≠ "unknown" := by
  exact ⟨by decide, by decide⟩

/-- C7 amended: for every filename whose leftmost YYYYMMDD_HHMMSS token has a
date portion that parses as a valid calendar date (and is not 0001-01-01,
where the day subtraction would overflow), the derived reporting date is that
date minus one calendar day, formatted YYYY-MM-DD; a filename without such a
token yields the fixed sentinel 不明 (Japanese for unknown) instead of an
error.  Concrete cases cover the spec scenario and month, leap-February and
year rollovers. -/
theorem data_date_prior_day :
    (∀ fn : String, firstTs fn.data = none →
        get_data_date_from_filename fn = some "不明")
    ∧ (∀ (fn : String) (d8 : List Char) (dt : Date), firstTs fn.data = some d8 →
        strptimeY8 d8 = some dt → dt ≠ ⟨1, 1, 1⟩ →
        get_data_date_from_filename fn = some (formatDate (prevDay dt)))
    ∧ get_data_date_from_filename "industry_x_20260211_090000.xlsx" = some "2026-02-10"
    ∧ get_data_date_from_filename "industry_x_20260301_090000.xlsx" = some "2026-02-28"
    ∧ get_data_date_from_filename "industry_x_20240301_090000.xlsx" = some "2024-02-29"
    ∧ get_data_date_from_filename "industry_x_20260101_090000.xlsx" = some "2025-12-31" := by
  refine ⟨?_, ?_, by decide, by decide, by decide, by decide⟩
  · intro fn h
    unfold get_data_date_from_filename
    rw [h]
  · intro fn d8 dt h1 h2 h3
    unfold get_data_date_from_filename
    simp only [h1, h2]
    rw [if_neg h3]

/-- Closed witness for `data_date_prior_day` at the spec scenario filename. -/
theorem data_date_prior_day_witness :
    get_data_date_from_filename "x_20260211_090000.xlsx"
      = some (formatDate (prevDay ⟨2026, 2, 11⟩)) :=
  data_date_prior_day.2.1 "x_20260211_090000.xlsx"
    ['2', '0', '2', '6', '0', '2', '1', '1'] ⟨2026, 2, 11⟩
    (by decide) (by decide) (by decide)

/-- A spreadsheet cell as pandas sees it after read_excel: missing (NaN),
a string, or a number. -/
inductive Cell where
  | na : Cell
  | str (s : String) : Cell
  | num (q : ℚ) : Cell
deriving DecidableEq

/-- Whether a cell is missing, the test applied by dropna on a
non-coerced column. -/
def isNaCell : Cell → Bool
  | .na => true
  | _ => false

/-- Value of a list of decimal digit characters read as an unsigned
decimal number with optional fractional part. -/
def parseDecimalChars (l : List Char) : Option ℚ :=
  let intPart := l.takeWhile Char.isDigit
  let rest := l.dropWhile Char.isDigit
  match rest with
  | [] => if intPart = [] then none else some (digitsVal intPart)
  | '.' :: frac =>
    if frac.all Char.isDigit ∧ (intPart ≠ [] ∨ frac ≠ []) then
      some ((digitsVal intPart : ℚ) + (digitsVal frac : ℚ) / (10 ^ frac.length))
    else none
  | _ => none

/-- Numeric reading of a string, the acceptance model for pandas
to_numeric on string cells: optional minus sign, digits, optional
fractional part. -/
def parseDecimal (s : String) : Option ℚ :=
  match s.data with
  | '-' :: rest => (parseDecimalChars rest).map (fun q => -q)
  | l => parseDecimalChars l

/-- Embedding of pandas to_numeric with errors coerce: numbers pass
through, parseable strings are converted, anything else becomes
missing (NaN) instead of raising. -/
def toNumeric : Cell → Option ℚ
  | .na => none
  | .num q => some q
  | .str s => parseDecimal s

/-- A raw row of the three retained industry columns
(Industry, RS_Rating, Buy_Pressure) before coercion. -/
structure RawIndRow where
  industry : Cell
  rs : Cell
  bp : Cell
deriving DecidableEq

/-- A row after the two to_numeric coercions of src/app.py lines 174-175
(and 186-188): the industry cell untouched, rating and pressure coerced. -/
structure CoercedRow where
  industry : Cell
  rs : Option ℚ
  bp : Option ℚ
deriving DecidableEq

/-- The column coercion step applied to one row. -/
def coerceRow (r : RawIndRow) : CoercedRow :=
  ⟨r.industry, toNumeric r.rs, toNumeric r.bp⟩

/-- Embedding of the qualifying-industry normalization (src/app.py lines
173-176): coerce RS_Rating and Buy_Pressure, then dropna over all three
columns. -/
def qualifyingTable (rows : List RawIndRow) : List CoercedRow :=
  (rows.map coerceRow).filter
    (fun r => !(isNaCell r.industry) && r.rs.isSome && r.bp.isSome)

/-- Embedding of the full-population pass (src/app.py lines 178-189, in the
branch where the Full_Results sheet has Industry, Buy_Pressure and RS_Rating
columns): both numeric columns are coerced but dropna is restricted to the
Buy_Pressure subset. -/
def fullPopulationTable (rows : List RawIndRow) : List CoercedRow :=
  (rows.map coerceRow).filter (fun r => r.bp.isSome)

theorem length_filter_split {α : Type} (l : List α) (p : α → Bool) :
    (l.filter p).length + (l.filter (fun a => !(p a))).length = l.length := by
  induction l with
  | nil => rfl
  | cons x xs ih =>
    rw [List.filter_cons, List.filter_cons]
    by_cases hx : p x = true
    · rw [if_pos hx, if_neg (by simp [hx])]
      simp only [List.length_cons]
      omega
    · rw [if_neg hx, if_pos (by simp [Bool.not_eq_true] at hx; simp [hx])]
      simp only [List.length_cons]
      omega

/-- C6 counterexample: a row whose rating and pressure both coerce to numeric
but whose industry cell is missing is dropped from the qualifying table, so
the table does not contain exactly the rows with numerically coercible rating
and pressure. -/
theorem qualifying_drops_missing_industry :
    (toNumeric (Cell.num 55)).isSome = true
    ∧ (toNumeric (Cell.num (1/2))).isSome = true
    ∧ qualifyingTable [⟨Cell.na, Cell.num 55, Cell.num (1/2)⟩] = [] := by
  refine ⟨rfl, rfl, ?_⟩
  rfl

/-- C6 amended: the qualifying-industry table contains exactly the rows whose
industry cell is present and whose rating and pressure both coerce to
numeric; rows failing any of the three are dropped without raising, and the
resulting row count is the input count minus the dropped count. -/
theorem qualifying_table_spec (rows : List RawIndRow) :
    qualifyingTable rows
      = (rows.filter (fun r => !(isNaCell r.industry)
          && (toNumeric r.rs).isSome && (toNumeric r.bp).isSome)).map coerceRow
    ∧ (qualifyingTable rows).length
      = rows.length - (rows.filter (fun r => !(!(isNaCell r.industry)
          && (toNumeric r.rs).isSome && (toNumeric r.bp).isSome))).length
    ∧ (∀ r ∈ qualifyingTable rows,
        r.rs.isSome = true ∧ r.bp.isSome = true ∧ isNaCell r.industry = false) := by
  have heq : qualifyingTable rows
      = (rows.filter (fun r => !(isNaCell r.industry)
          && (toNumeric r.rs).isSome && (toNumeric r.bp).isSome)).map coerceRow := by
    rw [qualifyingTable, List.filter_map]
    rfl
  refine ⟨heq, ?_, ?_⟩
  · rw [heq, List.length_map]
    have hsplit := length_filter_split rows (fun r => !(isNaCell r.industry)
        && (toNumeric r.rs).isSome && (toNumeric r.bp).isSome)
    omega
  · intro r hr
    rw [qualifyingTable, List.mem_filter] at hr
    have hpred := hr.2
    simp only [Bool.and_eq_true, Bool.not_eq_true'] at hpred
    exact ⟨hpred.1.2, hpred.2, hpred.1.1⟩

/-- Closed witness for `qualifying_table_spec`: a fully well-formed row is in
the table and satisfies the three column facts. -/
theorem qualifying_table_spec_witness :
    (coerceRow ⟨Cell.str "Tech", Cell.num 95, Cell.num 1⟩).rs.isSome = true
    ∧ (coerceRow ⟨Cell.str "Tech", Cell.num 95, Cell.num 1⟩).bp.isSome = true
    ∧ isNaCell (coerceRow ⟨Cell.str "Tech", Cell.num 95, Cell.num 1⟩).industry = false :=
  (qualifying_table_spec [⟨Cell.str "Tech", Cell.num 95, Cell.num 1⟩]).2.2
    (coerceRow ⟨Cell.str "Tech", Cell.num 95, Cell.num 1⟩)
    (by
      rw [show qualifyingTable [⟨Cell.str "Tech", Cell.num 95, Cell.num 1⟩]
          = [coerceRow ⟨Cell.str "Tech", Cell.num 95, Cell.num 1⟩] from rfl]
      exact List.mem_singleton.mpr rfl)

/-- C10: the full-population industry table (Full_Results branch with an
RS_Rating column) drops only rows whose Buy_Pressure fails numeric coercion:
it is the coercion image of exactly those rows, every surviving row has a
numeric pressure, and a row with non-coercible RS_Rating but coercible
Buy_Pressure is retained there while the qualifying table excludes it. -/
theorem full_population_keeps_rs_failures (rows : List RawIndRow) (r : RawIndRow) :
    fullPopulationTable rows
      = (rows.filter (fun r => (toNumeric r.bp).isSome)).map coerceRow
    ∧ (∀ x ∈ fullPopulationTable rows, x.bp.isSome = true)
    ∧ (toNumeric r.rs = none → (toNumeric r.bp).isSome = true → r ∈ rows →
        coerceRow r ∈ fullPopulationTable rows
        ∧ coerceRow r ∉ qualifyingTable rows) := by
  refine ⟨?_, ?_, ?_⟩
  · rw [fullPopulationTable, List.filter_map]
    rfl
  · intro x hx
    rw [fullPopulationTable, List.mem_filter] at hx
    exact hx.2
  · intro hrs hbp hmem
    constructor
    · rw [fullPopulationTable, List.mem_filter]
      exact ⟨List.mem_map_of_mem coerceRow hmem, hbp⟩
    · intro hq
      rw [qualifyingTable, List.mem_filter] at hq
      have hpred := hq.2
      simp [coerceRow, hrs] at hpred

/-- Closed witness for `full_population_keeps_rs_failures`: a row with missing
rating and numeric pressure is kept in the full-population table and absent
from the qualifying table. -/
theorem full_population_keeps_rs_failures_witness :
    coerceRow ⟨Cell.str "Tech", Cell.na, Cell.num 1⟩
        ∈ fullPopulationTable [⟨Cell.str "Tech", Cell.na, Cell.num 1⟩]
    ∧ coerceRow ⟨Cell.str "Tech", Cell.na, Cell.num 1⟩
        ∉ qualifyingTable [⟨Cell.str "Tech", Cell.na, Cell.num 1⟩] :=
  (full_population_keeps_rs_failures [⟨Cell.str "Tech", Cell.na, Cell.num 1⟩]
      ⟨Cell.str "Tech", Cell.na, Cell.num 1⟩).2.2
    rfl rfl (List.mem_singleton.mpr rfl)

/-- The dropna of src/app.py line 203 over the two retained columns of the
raw screening sheet: keep the (Industry, Sector) pairs where both cells are
present. -/
def dropnaPairs (rows : List (Option String × Option String)) : List (String × String) :=
  rows.filterMap (fun r =>
    match r with
    | (some i, some s) => some (i, s)
    | _ => none)

/-- Keep-first deduplication with an accumulator of already-seen values,
modelling pandas drop_duplicates and Series.unique, whose outputs keep the
first occurrence of each value in encounter order. -/
def dedupSeen {α : Type} [DecidableEq α] (seen : List α) : List α → List α
  | [] => []
  | x :: xs => if x ∈ seen then dedupSeen seen xs else x :: dedupSeen (x :: seen) xs

/-- First-occurrence deduplication of a list. -/
def uniqueFirst {α : Type} [DecidableEq α] (l : List α) : List α :=
  dedupSeen [] l

theorem mem_dedupSeen {α : Type} [DecidableEq α] (seen l : List α) (x : α) :
    x ∈ dedupSeen seen l ↔ x ∈ l ∧ x ∉ seen := by
  induction l generalizing seen with
  | nil => simp [dedupSeen]
  | cons y ys ih =>
    rw [dedupSeen]
    by_cases hy : y ∈ seen
    · rw [if_pos hy, ih seen]
      by_cases hxy : x = y
      · subst hxy
        simp [hy]
      · simp [hxy]
    · rw [if_neg hy, List.mem_cons, ih (y :: seen)]
      by_cases hxy : x = y
      · subst hxy
        simp [hy]
      · simp [hxy]

theorem nodup_dedupSeen {α : Type} [DecidableEq α] (seen l : List α) :
    (dedupSeen seen l).Nodup := by
  induction l generalizing seen with
  | nil => simp [dedupSeen]
  | cons y ys ih =>
    rw [dedupSeen]
    by_cases hy : y ∈ seen
    · rw [if_pos hy]
      exact ih seen
    · rw [if_neg hy, List.nodup_cons]
      refine ⟨?_, ih (y :: seen)⟩
      intro hc
      exact ((mem_dedupSeen (y :: seen) ys y).mp hc).2 (List.mem_cons_self _ _)

theorem mem_uniqueFirst {α : Type} [DecidableEq α] (l : List α) (x : α) :
    x ∈ uniqueFirst l ↔ x ∈ l := by
  rw [uniqueFirst, mem_dedupSeen]
  simp

theorem nodup_uniqueFirst {α : Type} [DecidableEq α] (l : List α) :
    (uniqueFirst l).Nodup :=
  nodup_dedupSeen [] l

/-- Occurrence count of a value in a list of sectors. -/
def countVal (l : List String) (v : String) : ℕ :=
  (l.filter (fun s => decide (s = v))).length

/-- The highest occurrence count attained by any value of the list. -/
def maxCountOf (l : List String) : ℕ :=
  ((uniqueFirst l).map (fun v => countVal l v)).foldr max 0

/-- Stable insertion for an ascending sort by key. -/
def insertAscBy {α β : Type} [LinearOrder β] (key : α → β) (x : α) : List α → List α
  | [] => [x]
  | y :: ys => if key y < key x then y :: insertAscBy key x ys else x :: y :: ys

/-- Ascending insertion sort by key, used for the sorted order of the pandas
Series.mode result. -/
def sortAscBy {α β : Type} [LinearOrder β] (key : α → β) : List α → List α
  | [] => []
  | x :: xs => insertAscBy key x (sortAscBy key xs)

/-- Embedding of pandas Series.mode: every value attaining the highest
occurrence count, sorted ascending (code-point order on strings). -/
def seriesMode (l : List String) : List String :=
  sortAscBy (fun s : String => s.data)
    ((uniqueFirst l).filter (fun v => decide (countVal l v = maxCountOf l)))

/-- Embedding of the industry-sector map construction (src/app.py lines
201-206): select Industry and Sector from the raw screening rows, dropna,
drop_duplicates on the pair, then for each industry (in first-occurrence
order) take iloc[0] of the mode of the surviving sector values; the
len-zero fallback to Unknown of line 206 is kept although it is unreachable
for industries taken from the rows themselves. -/
def buildSectorMap (rows : List (Option String × Option String)) :
    List (String × String) :=
  let sectorDf := uniqueFirst (dropnaPairs rows)
  (uniqueFirst (sectorDf.map Prod.fst)).map (fun i =>
    (i, match seriesMode ((sectorDf.filter (fun p => decide (p.1 = i))).map Prod.snd) with
        | s :: _ => s
        | [] => "Unknown"))

/-- Embedding of the rollup lookup (src/app.py line 735): map over the
industry-sector dict, then fillna Unknown for industries absent from it. -/
def lookupSector (m : List (String × String)) (i : String) : String :=
  match m.find? (fun p => decide (p.1 = i)) with
  | some p => p.2
  | none => "Unknown"

/-- Modelled from the spec (claim C2 wording): the modal (most frequent)
sector values among ALL raw stock records sharing the industry, computed on
the dropna rows without deduplication; the reference the map is compared
against. -/
def spec_modalSectors (rows : List (Option String × Option String)) (i : String) :
    List String :=
  let sectors := ((dropnaPairs rows).filter (fun p => decide (p.1 = i))).map Prod.snd
  (uniqueFirst sectors).filter (fun v => decide (countVal sectors v = maxCountOf sectors))

/-- Screening extract with industry I appearing with sector B twice and
sector A once. -/
def sectorRowsEx : List (Option String × Option String) :=
  [(some "I", some "B"), (some "I", some "B"), (some "I", some "A")]

theorem insertAscBy_perm {α β : Type} [LinearOrder β] (key : α → β) (x : α)
    (l : List α) : List.Perm (insertAscBy key x l) (x :: l) := by
  induction l with
  | nil => exact List.Perm.refl _
  | cons y ys ih =>
    rw [insertAscBy]
    split_ifs
    · exact (ih.cons y).trans (List.Perm.swap x y ys)
    · exact List.Perm.refl _

theorem sortAscBy_perm {α β : Type} [LinearOrder β] (key : α → β) (l : List α) :
    List.Perm (sortAscBy key l) l := by
  induction l with
  | nil => exact List.Perm.refl _
  | cons x xs ih => exact (insertAscBy_perm key x (sortAscBy key xs)).trans (ih.cons x)

theorem mem_insertAscBy {α β : Type} [LinearOrder β] (key : α → β) (x a : α)
    (l : List α) : a ∈ insertAscBy key x l ↔ a = x ∨ a ∈ l := by
  rw [(insertAscBy_perm key x l).mem_iff, List.mem_cons]

theorem sorted_insertAscBy {α β : Type} [LinearOrder β] (key : α → β) (x : α)
    (l : List α) (h : l.Sorted (fun a b => key a ≤ key b)) :
    (insertAscBy key x l).Sorted (fun a b => key a ≤ key b) := by
  induction l with
  | nil => simp [insertAscBy]
  | cons y ys ih =>
    rw [List.sorted_cons] at h
    obtain ⟨hy, hys⟩ := h
    rw [insertAscBy]
    split_ifs with hlt
    · rw [List.sorted_cons]
      refine ⟨?_, ih hys⟩
      intro b hb
      rcases (mem_insertAscBy key x b ys).mp hb with rfl | hb
      · exact le_of_lt hlt
      · exact hy b hb
    · rw [List.sorted_cons]
      refine ⟨?_, List.sorted_cons.mpr ⟨hy, hys⟩⟩
      intro b hb
      rcases List.mem_cons.mp hb with rfl | hb
      · exact le_of_not_lt hlt
      · exact (le_of_not_lt hlt).trans (hy b hb)

theorem sorted_sortAscBy {α β : Type} [LinearOrder β] (key : α → β) (l : List α) :
    (sortAscBy key l).Sorted (fun a b => key a ≤ key b) := by
  induction l with
  | nil => simp [sortAscBy]
  | cons x xs ih => exact sorted_insertAscBy key x _ ih

theorem sortAscBy_head_min {α β : Type} [LinearOrder β] (key : α → β) (l : List α)
    (c : α) (rest : List α) (h : sortAscBy key l = c :: rest) :
    c ∈ l ∧ ∀ x ∈ l, key c ≤ key x := by
  have hperm := sortAscBy_perm key l
  rw [h] at hperm
  have hsorted := sorted_sortAscBy key l
  rw [h, List.sorted_cons] at hsorted
  constructor
  · exact hperm.subset (List.mem_cons_self c rest)
  · intro x hx
    rcases List.mem_cons.mp (hperm.symm.subset hx) with rfl | hx2
    · exact le_refl _
    · exact hsorted.1 x hx2

theorem countVal_eq_zero {l : List String} {v : String} (hv : v ∉ l) :
    countVal l v = 0 := by
  induction l with
  | nil => rfl
  | cons x xs ih =>
    rw [countVal, List.filter_cons, if_neg]
    · exact ih (fun hc => hv (List.mem_cons_of_mem x hc))
    · simp only [decide_eq_true_eq]
      intro hxv
      exact hv (hxv ▸ List.mem_cons_self x xs)

theorem countVal_nodup_mem {l : List String} {v : String} (hn : l.Nodup)
    (hv : v ∈ l) : countVal l v = 1 := by
  induction l with
  | nil => cases hv
  | cons x xs ih =>
    rw [List.nodup_cons] at hn
    rw [countVal, List.filter_cons]
    by_cases hxv : x = v
    · subst hxv
      rw [if_pos (by simp)]
      have hzero : countVal xs x = 0 := countVal_eq_zero hn.1
      rw [countVal] at hzero
      simp [List.length_cons, hzero]
    · rw [if_neg (by simp [hxv])]
      exact ih hn.2 (by
        rcases List.mem_cons.mp hv with rfl | h2
        · exact absurd rfl hxv
        · exact h2)

theorem foldr_max_mem (l : List ℕ) (h : l ≠ []) : l.foldr max 0 ∈ l := by
  induction l with
  | nil => exact absurd rfl h
  | cons x xs ih =>
    by_cases hxs : xs = []
    · subst hxs
      simp
    · rw [List.foldr_cons]
      rcases max_choice x (xs.foldr max 0) with hm | hm
      · rw [hm]
        exact List.mem_cons_self _ _
      · rw [hm]
        exact List.mem_cons_of_mem x (ih hxs)

theorem maxCountOf_of_nodup {S : List String} (hn : S.Nodup) (hne : S ≠ []) :
    maxCountOf S = 1 := by
  have hune : uniqueFirst S ≠ [] := by
    obtain ⟨s, rest, rfl⟩ := List.exists_cons_of_ne_nil hne
    exact List.ne_nil_of_mem ((mem_uniqueFirst _ s).mpr (List.mem_cons_self s rest))
  have hne2 : (uniqueFirst S).map (fun v => countVal S v) ≠ [] := by
    simp [hune]
  have hmem := foldr_max_mem _ hne2
  rw [maxCountOf]
  rcases List.mem_map.mp hmem with ⟨v, hv, hveq⟩
  rw [← hveq]
  exact countVal_nodup_mem hn ((mem_uniqueFirst _ v).mp hv)

theorem seriesMode_of_nodup {S : List String} (hn : S.Nodup) (hne : S ≠ []) :
    seriesMode S = sortAscBy (fun s : String => s.data) (uniqueFirst S) := by
  rw [seriesMode]
  congr 1
  apply List.filter_eq_self.mpr
  intro v hv
  rw [maxCountOf_of_nodup hn hne]
  simp [countVal_nodup_mem hn ((mem_uniqueFirst _ v).mp hv)]

theorem find_map_keyed (keys : List String) (f : String → String) (i : String)
    (hi : i ∈ keys) :
    (keys.map (fun j => (j, f j))).find? (fun p => decide (p.1 = i)) = some (i, f i) := by
  induction keys with
  | nil => cases hi
  | cons k ks ih =>
    rw [List.map_cons]
    by_cases hk : k = i
    · subst hk
      rw [List.find?_cons_of_pos _ (by simp)]
    · rw [List.find?_cons_of_neg _ (by simp [hk])]
      refine ih ?_
      rcases List.mem_cons.mp hi with rfl | h2
      · exact absurd rfl hk
      · exact h2

theorem find_map_keyed_none (keys : List String) (f : String → String) (i : String)
    (hi : i ∉ keys) :
    (keys.map (fun j => (j, f j))).find? (fun p => decide (p.1 = i)) = none := by
  induction keys with
  | nil => rfl
  | cons k ks ih =>
    rw [List.map_cons]
    rw [List.find?_cons_of_neg _ (by
      simp only [decide_eq_true_eq]
      intro hk
      exact hi (hk ▸ List.mem_cons_self k ks))]
    exact ih (fun hc => hi (List.mem_cons_of_mem k hc))

/-- C2 counterexample: for industry I with sector B on two stock records            
and sector A on one, the modal sector is B alone, but the map assigns A:
drop_duplicates flattens all frequencies to one before mode is taken, so
mode returns every distinct sector sorted ascending and iloc[0] picks the
alphabetically least, not the most frequent. -/
theorem sector_map_not_modal :
    lookupSector (buildSectorMap sectorRowsEx) "I" = "A"
    ∧ spec_modalSectors sectorRowsEx "I" = ["B"]
    ∧ ("A" : String) ≠ "B" := by
  refine ⟨by decide, by decide, by decide⟩

/-- C2 amended: for every industry appearing (with a sector) in the raw
stock rows, the map assigns the lexicographically least of the DISTINCT
non-null sector values co-occurring with that industry (the mode of the
deduplicated industry-sector pairs), and every industry absent from the map
is assigned Unknown when looked up during rollup. -/
theorem sector_map_least_distinct (rows : List (Option String × Option String))
    (i : String) :
    (i ∈ (uniqueFirst (dropnaPairs rows)).map Prod.fst →
      lookupSector (buildSectorMap rows) i
          ∈ ((uniqueFirst (dropnaPairs rows)).filter
              (fun p => decide (p.1 = i))).map Prod.snd
      ∧ ∀ s ∈ ((uniqueFirst (dropnaPairs rows)).filter
              (fun p => decide (p.1 = i))).map Prod.snd,
          lookupSector (buildSectorMap rows) i ≤ s)
    ∧ (i ∉ (uniqueFirst (dropnaPairs rows)).map Prod.fst →
        lookupSector (buildSectorMap rows) i = "Unknown") := by
  have hb : buildSectorMap rows
      = (uniqueFirst ((uniqueFirst (dropnaPairs rows)).map Prod.fst)).map
        (fun j => (j, match seriesMode (((uniqueFirst (dropnaPairs rows)).filter
              (fun p => decide (p.1 = j))).map Prod.snd) with
            | s :: _ => s
            | [] => "Unknown")) := rfl
  constructor
  · intro hi
    have hikeys : i ∈ uniqueFirst ((uniqueFirst (dropnaPairs rows)).map Prod.fst) :=
      (mem_uniqueFirst _ i).mpr hi
    have hfind := find_map_keyed
        (uniqueFirst ((uniqueFirst (dropnaPairs rows)).map Prod.fst))
        (fun j => match seriesMode (((uniqueFirst (dropnaPairs rows)).filter
            (fun p => decide (p.1 = j))).map Prod.snd) with
          | s :: _ => s
          | [] => "Unknown") i hikeys
    have hlook : lookupSector (buildSectorMap rows) i
        = (match seriesMode (((uniqueFirst (dropnaPairs rows)).filter
            (fun p => decide (p.1 = i))).map Prod.snd) with
          | s :: _ => s
          | [] => "Unknown") := by
      unfold lookupSector
      rw [hb, hfind]
    have hSne : ((uniqueFirst (dropnaPairs rows)).filter
        (fun p => decide (p.1 = i))).map Prod.snd ≠ [] := by
      rcases List.mem_map.mp hi with ⟨p, hp, hp1⟩
      have hpf : p ∈ (uniqueFirst (dropnaPairs rows)).filter
          (fun p => decide (p.1 = i)) :=
        List.mem_filter.mpr ⟨hp, by simp [hp1]⟩
      exact List.ne_nil_of_mem (List.mem_map_of_mem Prod.snd hpf)
    have hSnd : (((uniqueFirst (dropnaPairs rows)).filter
        (fun p => decide (p.1 = i))).map Prod.snd).Nodup := by
      refine List.Nodup.map_on ?_ ((nodup_uniqueFirst _).filter _)
      intro x hx y hy hxy
      have hx1 : x.1 = i := by
        have hx2 := (List.mem_filter.mp hx).2
        simpa using hx2
      have hy1 : y.1 = i := by
        have hy2 := (List.mem_filter.mp hy).2
        simpa using hy2
      exact Prod.ext (hx1.trans hy1.symm) hxy
    rw [seriesMode_of_nodup hSnd hSne] at hlook
    have hune : uniqueFirst (((uniqueFirst (dropnaPairs rows)).filter
        (fun p => decide (p.1 = i))).map Prod.snd) ≠ [] := by
      obtain ⟨s, rest, hcons⟩ := List.exists_cons_of_ne_nil hSne
      refine List.ne_nil_of_mem ((mem_uniqueFirst _ s).mpr ?_)
      rw [hcons]
      exact List.mem_cons_self _ _
    have hsne : sortAscBy (fun s : String => s.data)
        (uniqueFirst (((uniqueFirst (dropnaPairs rows)).filter
          (fun p => decide (p.1 = i))).map Prod.snd)) ≠ [] := by
      intro h0
      have hlen := (sortAscBy_perm (fun s : String => s.data)
          (uniqueFirst (((uniqueFirst (dropnaPairs rows)).filter
            (fun p => decide (p.1 = i))).map Prod.snd))).length_eq
      rw [h0] at hlen
      exact hune (List.eq_nil_of_length_eq_zero hlen.symm)
    obtain ⟨c, rest, hc⟩ := List.exists_cons_of_ne_nil hsne
    have hmin := sortAscBy_head_min (fun s : String => s.data) _ c rest hc
    have hlook2 : lookupSector (buildSectorMap rows) i = c := by
      rw [hlook, hc]
    rw [hlook2]
    constructor
    · exact (mem_uniqueFirst _ c).mp hmin.1
    · intro s hs
      have hsu := (mem_uniqueFirst (((uniqueFirst (dropnaPairs rows)).filter
          (fun p => decide (p.1 = i))).map Prod.snd) s).mpr hs
      exact String.le_iff_toList_le.mpr (hmin.2 s hsu)
  · intro hi
    have hikeys : i ∉ uniqueFirst ((uniqueFirst (dropnaPairs rows)).map Prod.fst) :=
      fun hc => hi ((mem_uniqueFirst _ i).mp hc)
    have hfind := find_map_keyed_none
        (uniqueFirst ((uniqueFirst (dropnaPairs rows)).map Prod.fst))
        (fun j => match seriesMode (((uniqueFirst (dropnaPairs rows)).filter
            (fun p => decide (p.1 = j))).map Prod.snd) with
          | s :: _ => s
          | [] => "Unknown") i hikeys
    unfold lookupSector
    rw [hb, hfind]

/-- Closed witness for `sector_map_least_distinct` on the concrete screening
extract with industry I. -/
theorem sector_map_least_distinct_witness :
    lookupSector (buildSectorMap sectorRowsEx) "I"
        ∈ ((uniqueFirst (dropnaPairs sectorRowsEx)).filter
            (fun p => decide (p.1 = "I"))).map Prod.snd
    ∧ ∀ s ∈ ((uniqueFirst (dropnaPairs sectorRowsEx)).filter
            (fun p => decide (p.1 = "I"))).map Prod.snd,
        lookupSector (buildSectorMap sectorRowsEx) "I" ≤ s :=
  (sector_map_least_distinct sectorRowsEx "I").1 (by decide)

/-- A stock record of the filtered screening table used by the matrix. -/
structure StockRow where
  symbol : String
  industry : String
  technicalScore : ℚ
  screeningScore : ℚ
  buyPressure : Option ℚ
  companyName : String
deriving DecidableEq

/-- An industry record of the qualifying-industry table used by the matrix. -/
structure IndRow where
  industry : String
  rsRating : ℚ
  buyPressure : ℚ
deriving DecidableEq

/-- The two sort columns accepted by create_industry_table. -/
inductive SortKey where
  | technical : SortKey
  | screening : SortKey
deriving DecidableEq

/-- Column selected by the sort key. -/
def keyOf : SortKey → StockRow → ℚ
  | .technical, s => s.technicalScore
  | .screening, s => s.screeningScore


/-- The contract pandas documents for sort_values(ascending=False) with the
default kind (quicksort): the output is a permutation of the input rows,
sorted descending by the key column.  The relative order of rows with equal
keys is implementation-defined (numpy introsort is not stable), so the
contract does not constrain it. -/
def IsDescSortOn (γ : Type) (sortV : (γ → ℚ) → List γ → List γ) : Prop :=
  ∀ (key : γ → ℚ) (l : List γ),
    List.Perm (sortV key l) l
    ∧ (sortV key l).Sorted (fun a b => key b ≤ key a)

theorem isDescSortOn_sortDescBy (γ : Type) : IsDescSortOn γ sortDescBy :=
  fun key l => ⟨sortDescBy_perm key l, sorted_sortDescBy key l⟩

/-- Insertion that passes every element with a greater-or-equal key, so
elements with equal keys end up in reversed input order. -/
def insertDescRev {γ : Type} (key : γ → ℚ) (x : γ) : List γ → List γ
  | [] => [x]
  | y :: ys => if key x ≤ key y then y :: insertDescRev key x ys else x :: y :: ys

/-- A descending sort meeting the sort_values contract whose tie order is the
reverse of the input order: one admissible realization of the
implementation-defined quicksort tie behaviour. -/
def revTieSort {γ : Type} (key : γ → ℚ) : List γ → List γ
  | [] => []
  | x :: xs => insertDescRev key x (revTieSort key xs)

theorem insertDescRev_perm {γ : Type} (key : γ → ℚ) (x : γ) (l : List γ) :
    List.Perm (insertDescRev key x l) (x :: l) := by
  induction l with
  | nil => exact List.Perm.refl _
  | cons y ys ih =>
    rw [insertDescRev]
    split_ifs
    · exact (ih.cons y).trans (List.Perm.swap x y ys)
    · exact List.Perm.refl _

theorem revTieSort_perm {γ : Type} (key : γ → ℚ) (l : List γ) :
    List.Perm (revTieSort key l) l := by
  induction l with
  | nil => exact List.Perm.refl _
  | cons x xs ih => exact (insertDescRev_perm key x (revTieSort key xs)).trans (ih.cons x)

theorem mem_insertDescRev {γ : Type} (key : γ → ℚ) (x a : γ) (l : List γ) :
    a ∈ insertDescRev key x l ↔ a = x ∨ a ∈ l := by
  rw [(insertDescRev_perm key x l).mem_iff, List.mem_cons]

theorem sorted_insertDescRev {γ : Type} (key : γ → ℚ) (x : γ) (l : List γ)
    (h : l.Sorted (fun a b => key b ≤ key a)) :
    (insertDescRev key x l).Sorted (fun a b => key b ≤ key a) := by
  induction l with
  | nil => simp [insertDescRev]
  | cons y ys ih =>
    rw [List.sorted_cons] at h
    obtain ⟨hy, hys⟩ := h
    rw [insertDescRev]
    split_ifs with hle
    · rw [List.sorted_cons]
      refine ⟨?_, ih hys⟩
      intro b hb
      rcases (mem_insertDescRev key x b ys).mp hb with rfl | hb
      · exact hle
      · exact hy b hb
    · rw [List.sorted_cons]
      refine ⟨?_, List.sorted_cons.mpr ⟨hy, hys⟩⟩
      intro b hb
      rcases List.mem_cons.mp hb with rfl | hb
      · exact le_of_not_le hle
      · exact (hy b hb).trans (le_of_not_le hle)

theorem sorted_revTieSort {γ : Type} (key : γ → ℚ) (l : List γ) :
    (revTieSort key l).Sorted (fun a b => key b ≤ key a) := by
  induction l with
  | nil => simp [revTieSort]
  | cons x xs ih => exact sorted_insertDescRev key x _ ih

theorem isDescSortOn_revTieSort (γ : Type) : IsDescSortOn γ revTieSort :=
  fun key l => ⟨revTieSort_perm key l, sorted_revTieSort key l⟩

/-- Embedding of `create_industry_table` (src/app.py lines 318-331) as the
sequence of (industry row, displayed member stocks) groups it renders.  Both
sort_values calls go through the default quicksort, whose tie order is
implementation-defined, so the sort implementations are parameters of the
embedding, constrained by `IsDescSortOn` to what pandas guarantees:
industries sorted descending by RS rating; per industry the member stocks
filtered to that industry, sorted descending by the requested key and
truncated by head to the display cap; industries whose member list is empty
are skipped by the continue of lines 330-331. -/
def create_industry_table
    (sortInds : (IndRow → ℚ) → List IndRow → List IndRow)
    (sortStocks : (StockRow → ℚ) → List StockRow → List StockRow)
    (stocks : List StockRow) (inds : List IndRow)
    (sortBy : SortKey) (maxPerGroup : ℕ) : List (IndRow × List StockRow) :=
  (sortInds (fun r => r.rsRating) inds).filterMap (fun ir =>
    if ((sortStocks (keyOf sortBy)
        (stocks.filter (fun s => decide (s.industry = ir.industry)))).take
          maxPerGroup).isEmpty then
      none
    else
      some (ir, (sortStocks (keyOf sortBy)
        (stocks.filter (fun s => decide (s.industry = ir.industry)))).take
          maxPerGroup))

/-- Stock A of the spec scenario: technical 14, screening 20. -/
def stockA : StockRow := ⟨"A", "Tech", 14, 20, none, "A Corp"⟩

/-- Stock B of the spec scenario: technical 14, screening 18. -/
def stockB : StockRow := ⟨"B", "Tech", 14, 18, none, "B Corp"⟩

/-- Stock C of the spec scenario: technical 10, screening 25. -/
def stockC : StockRow := ⟨"C", "Tech", 10, 25, none, "C Corp"⟩

/-- Industry Tech of the spec scenario with rating 95. -/
def indTech : IndRow := ⟨"Tech", 95, 1⟩

/-- C5 counterexample: stocks A and B share the technical score and A comes
first in the input, yet under `revTieSort`, a sort implementation meeting
everything pandas guarantees for the default sort_values call the code makes,
the emitted group for Tech is [B, A]: the claim that ties are broken by
original input order (stable sort) is not a property the program provides. -/
theorem build_matrix_ties_not_stable :
    IsDescSortOn StockRow revTieSort
    ∧ create_industry_table revTieSort revTieSort [stockA, stockB, stockC]
        [indTech] SortKey.technical 2 = [(indTech, [stockB, stockA])]
    ∧ keyOf SortKey.technical stockA = keyOf SortKey.technical stockB
    ∧ stockA ≠ stockB := by
  refine ⟨isDescSortOn_revTieSort StockRow, by decide, by decide, by decide⟩

/-- C5 amended: for every sort implementation meeting the
sort_values(ascending=False) contract (descending permutation, tie order
implementation-defined), every group emitted by create_industry_table is
non-empty, holds at most maxPerGroup stocks, contains only stocks of the
group industry, is sorted descending by the requested key and is the
truncation of the implementation's ordering of the matching stocks;
industries with zero matching stocks are omitted from the output entirely. -/
theorem build_matrix_groups
    (sortInds : (IndRow → ℚ) → List IndRow → List IndRow)
    (sortStocks : (StockRow → ℚ) → List StockRow → List StockRow)
    (hsort : IsDescSortOn StockRow sortStocks)
    (stocks : List StockRow) (inds : List IndRow)
    (sortBy : SortKey) (maxPerGroup : ℕ) (ir : IndRow) (g : List StockRow) :
    ((ir, g) ∈ create_industry_table sortInds sortStocks stocks inds sortBy maxPerGroup →
      g ≠ []
      ∧ g.length ≤ maxPerGroup
      ∧ (∀ s ∈ g, s.industry = ir.industry)
      ∧ g.Sorted (fun a b => keyOf sortBy b ≤ keyOf sortBy a)
      ∧ g = (sortStocks (keyOf sortBy)
          (stocks.filter (fun s => decide (s.industry = ir.industry)))).take maxPerGroup)
    ∧ (stocks.filter (fun s => decide (s.industry = ir.industry)) = [] →
        ∀ g2, (ir, g2) ∉
          create_industry_table sortInds sortStocks stocks inds sortBy maxPerGroup) := by
  constructor
  · intro hmem
    rw [create_industry_table] at hmem
    rcases List.mem_filterMap.mp hmem with ⟨ir2, hir2, hf⟩
    by_cases hE : ((sortStocks (keyOf sortBy)
        (stocks.filter (fun s => decide (s.industry = ir2.industry)))).take
          maxPerGroup).isEmpty = true
    · rw [if_pos hE] at hf
      cases hf
    · rw [if_neg hE] at hf
      have hinj := Option.some.injEq _ _ ▸ hf
      have hir : ir2 = ir := (Prod.mk.injEq _ _ _ _ ▸ hinj).1
      have hgrp : (sortStocks (keyOf sortBy)
          (stocks.filter (fun s => decide (s.industry = ir.industry)))).take
            maxPerGroup = g := by
        have h2 := (Prod.mk.injEq _ _ _ _ ▸ hinj).2
        rw [← hir]
        exact h2
      subst hir
      refine ⟨?_, ?_, ?_, ?_, hgrp.symm⟩
      · intro h0
        rw [h0] at hgrp
        rw [hgrp] at hE
        exact hE rfl
      · rw [← hgrp, List.length_take]
        exact min_le_left _ _
      · intro s hs
        rw [← hgrp] at hs
        have hs2 : s ∈ sortStocks (keyOf sortBy)
            (stocks.filter (fun s => decide (s.industry = ir2.industry))) :=
          List.take_subset _ _ hs
        have hs3 := (hsort (keyOf sortBy)
            (stocks.filter (fun s => decide (s.industry = ir2.industry)))).1.subset hs2
        have hs4 := (List.mem_filter.mp hs3).2
        simpa using hs4
      · rw [← hgrp]
        exact ((hsort (keyOf sortBy)
            (stocks.filter (fun s => decide (s.industry = ir2.industry)))).2).sublist
          (List.take_sublist _ _)
  · intro hempty g2 hmem2
    rw [create_industry_table] at hmem2
    rcases List.mem_filterMap.mp hmem2 with ⟨ir2, hir2, hf⟩
    by_cases hE : ((sortStocks (keyOf sortBy)
        (stocks.filter (fun s => decide (s.industry = ir2.industry)))).take
          maxPerGroup).isEmpty = true
    · rw [if_pos hE] at hf
      cases hf
    · rw [if_neg hE] at hf
      have hinj := Option.some.injEq _ _ ▸ hf
      have hir : ir2 = ir := (Prod.mk.injEq _ _ _ _ ▸ hinj).1
      subst hir
      have hnil : sortStocks (keyOf sortBy) [] = [] := by
        have hp := (hsort (keyOf sortBy) []).1
        exact List.eq_nil_of_length_eq_zero (by simpa using hp.length_eq)
      rw [hempty, hnil, List.take_nil] at hE
      exact hE rfl

/-- Closed witness for `build_matrix_groups`: the spec scenario under one
admissible sort implementation, where the group for Tech under the technical
key with cap 2 is [A, B] and C is truncated. -/
theorem build_matrix_groups_witness :
    ([stockA, stockB] : List StockRow) ≠ []
    ∧ ([stockA, stockB] : List StockRow).length ≤ 2
    ∧ (∀ s ∈ ([stockA, stockB] : List StockRow), s.industry = indTech.industry)
    ∧ ([stockA, stockB] : List StockRow).Sorted
        (fun a b => keyOf SortKey.technical b ≤ keyOf SortKey.technical a)
    ∧ ([stockA, stockB] : List StockRow) = (sortDescBy (keyOf SortKey.technical)
        ([stockA, stockB, stockC].filter
          (fun s => decide (s.industry = indTech.industry)))).take 2 :=
  (build_matrix_groups sortDescBy sortDescBy (isDescSortOn_sortDescBy StockRow)
    [stockA, stockB, stockC] [indTech] SortKey.technical 2
    indTech [stockA, stockB]).1 (by decide)
